import Mathlib

/-!
Shallow embedding of the client-side session/authorization core of the
quiz-portal frontend (src/src/auth/jwt.ts, the AuthProvider in the auth
context module, and the PrivateRoute guard in
src/src/components/PageLoader.tsx), together with proofs about the
embedded operations.

Modelling conventions, used throughout:
* JavaScript runtime values that flow through the session logic are
  modelled by the inductive `Json` (numbers are modelled as integers:
  every numeric value the session logic manipulates — user ids and
  Unix-second expiry stamps — is integral).
* `undefined` is modelled as `Option.none` at use sites (`Js := Option
  Json`); the JavaScript `null` is the constructor `Json.jnull`.
* The browser `localStorage` is a pair of string slots (`Store`);
  `localStorage.getItem` returning `null` is `Option.none`.
* The current time (`Date.now() / 1000` in the source) is a single
  integer parameter `now`, passed explicitly.
-/

namespace QuizPortal

/-- JavaScript/JSON value as manipulated by the session code. Numbers are
modelled as integers (see the module docstring). -/
inductive Json where
  | jnull : Json
  | jbool : Bool → Json
  | jnum : Int → Json
  | jstr : String → Json
  | jarr : List Json → Json
  | jobj : List (String × Json) → Json

/-- Possibly-`undefined` JavaScript value: `none` is `undefined`. -/
abbrev Js := Option Json

/-- Truthiness of a JavaScript value (`Boolean(v)`): `null`, `false`, `0`
and the empty string are falsy; arrays and objects are always truthy. -/
def Json.truthy : Json → Bool
  | .jnull => false
  | .jbool b => b
  | .jnum n => n != 0
  | .jstr s => s ≠ ""
  | .jarr _ => true
  | .jobj _ => true

/-- Scalar (non-nesting) JSON value: everything except arrays and
objects. The round-trip theorem for cached user records is stated over
flat records, whose field values are scalars. -/
def Json.isScalar : Json → Bool
  | .jarr _ => false
  | .jobj _ => false
  | _ => true

/-- Truthiness of a possibly-`undefined` value: `undefined` is falsy. -/
def jsTruthy : Js → Bool
  | none => false
  | some j => j.truthy

/-- Nullish test, as used by the `??` operator: `undefined` or `null`. -/
def jsNullish : Js → Bool
  | none => true
  | some .jnull => true
  | some _ => false

/-- JavaScript nullish coalescing `a ?? d`. -/
def jsCoalesce (a d : Js) : Js :=
  if jsNullish a then d else a

/-- Property access `o.k` on a non-nullish value: only objects have own
properties; on a duplicate key the later member wins (as after
`JSON.parse`, where later assignments overwrite earlier ones). Access on
any other non-null value yields `undefined`. -/
def getField : Json → String → Js
  | .jobj fs, k => (fs.filterMap fun p => if p.1 = k then some p.2 else none).getLast?
  | _, _ => none

/-- Optional chaining `o?.k`: `undefined` when `o` is `null`, otherwise
plain property access. (At every `?.` site of the source the receiver is
known non-`undefined`: it came from a `JSON.parse` result or a local.) -/
def optChain : Json → String → Js
  | .jnull, _ => none
  | j, k => getField j k

/-- Numeric reading of a string, as `ToNumber` applies to a string: trim
whitespace, read an optionally-signed decimal integer; `none` stands for
`NaN` (fractional and exotic numeric strings do not occur in the modelled
flows, so they are read as `NaN`). -/
def strToNumber (s : String) : Option Int :=
  let ws : Char → Prop := fun c => c = ' ' ∨ c = '\t' ∨ c = '\n' ∨ c = '\r'
  let t := s.toList.dropWhile ws
  let t := (t.reverse.dropWhile ws).reverse
  if t = [] then some 0
  else
    let sd : Int × List Char :=
      match t with
      | '-' :: r => (-1, r)
      | '+' :: r => (1, r)
      | r => (1, r)
    if sd.2 ≠ [] ∧ sd.2.all Char.isDigit then
      some (sd.1 * (sd.2.foldl (fun a c => a * 10 + (c.toNat - 48)) 0 : Nat))
    else none

/-! ### Base64 decoding (the browser `atob`, per the forgiving-base64 algorithm) -/

/-- Value of a character of the standard base64 alphabet, `none` for any
other character (after padding removal an `=` is also invalid). -/
def b64Val (c : Char) : Option Nat :=
  if 'A' ≤ c ∧ c ≤ 'Z' then some (c.toNat - 65)
  else if 'a' ≤ c ∧ c ≤ 'z' then some (c.toNat - 97 + 26)
  else if '0' ≤ c ∧ c ≤ '9' then some (c.toNat - 48 + 52)
  else if c = '+' then some 62
  else if c = '/' then some 63
  else none

/-- ASCII whitespace, removed by forgiving-base64 before decoding. -/
def isB64Ws (c : Char) : Bool :=
  c = ' ' ∨ c = '\t' ∨ c = '\n' ∨ c = '\x0c' ∨ c = '\r'

/-- Removal of up to two trailing `=` characters, applicable only when the
whitespace-stripped input length is a multiple of four. -/
def stripPad (cs : List Char) : List Char :=
  if cs.length % 4 = 0 then
    if cs.getLast? = some '=' then
      let cs1 := cs.dropLast
      if cs1.getLast? = some '=' then cs1.dropLast else cs1
    else cs
  else cs

/-- Reassembly of six-bit groups into bytes: four sextets give three
bytes, a trailing pair gives one byte and a trailing triple gives two (the
leftover low bits are discarded, as forgiving-base64 does); a single
leftover sextet (length ≡ 1 mod 4) is an error. -/
def b64Bytes : List Nat → Option (List Nat)
  | [] => some []
  | [_] => none
  | [a, b] => some [a * 4 + b / 16]
  | [a, b, c] => some [a * 4 + b / 16, b % 16 * 16 + c / 4]
  | a :: b :: c :: d :: rest =>
    (b64Bytes rest).map fun tail =>
      (a * 4 + b / 16) :: (b % 16 * 16 + c / 4) :: (c % 4 * 64 + d) :: tail

/-- Browser `atob`: strip ASCII whitespace, strip permissible padding, map
every character to its sextet (failing on any foreign character), pack
sextets into bytes, and return the bytes as a string of code points below
256 (`atob` yields a latin-1 string). -/
def atob (s : String) : Option String :=
  let cs := stripPad (s.toList.filter fun c => ¬ isB64Ws c)
  match cs.mapM b64Val with
  | none => none
  | some sextets =>
    match b64Bytes sextets with
    | none => none
    | some bytes => some (String.mk (bytes.map Char.ofNat))

/-- Character-level model of `raw.split(".")`: JavaScript string split on
a one-character separator. -/
def splitDots : List Char → List (List Char)
  | [] => [[]]
  | c :: rest =>
    let r := splitDots rest
    if c = '.' then [] :: r
    else
      match r with
      | h :: t => (c :: h) :: t
      | [] => [[c]]

/-- Character-level model of the two global replacements performed on the
token segment before decoding (every dash becomes a plus, every
underscore becomes a slash): both regex patterns are single characters,
so the replacements are a character map. -/
def b64urlToB64 (cs : List Char) : List Char :=
  cs.map fun c => if c = '-' then '+' else if c = '_' then '/' else c

/-! ### JSON text: `JSON.stringify` and `JSON.parse`

Numbers are serialized and parsed as (optionally signed) decimal
integers; JSON fraction/exponent forms are rejected by the parser, a
deliberate restriction matching the integer number model. -/

/-- Escaping of one character inside a serialized string literal, exactly
the set `JSON.stringify` escapes: quote, backslash, the named control
escapes, and lowercase-hex `\u00..` for the remaining control characters
(`Nat.digitChar` yields exactly those lowercase hex digits). -/
def escapeChar (c : Char) : List Char :=
  if c = '"' then ['\\', '"']
  else if c = '\\' then ['\\', '\\']
  else if c = '\x08' then ['\\', 'b']
  else if c = '\x0c' then ['\\', 'f']
  else if c = '\n' then ['\\', 'n']
  else if c = '\r' then ['\\', 'r']
  else if c = '\t' then ['\\', 't']
  else if c.toNat < 32 then
    ['\\', 'u', '0', '0', Nat.digitChar (c.toNat / 16), Nat.digitChar (c.toNat % 16)]
  else [c]

/-- Serialized string literal body plus delimiters. -/
def strChars (s : String) : List Char :=
  '"' :: s.toList.flatMap escapeChar ++ ['"']

/-- Decimal digits of a natural number, most significant first. -/
def natChars (n : Nat) : List Char :=
  if _h : n < 10 then [Nat.digitChar n]
  else natChars (n / 10) ++ [Nat.digitChar (n % 10)]
decreasing_by exact Nat.div_lt_self (by omega) (by omega)

/-- Decimal rendering of an integer, as `String(n)` produces for an
integral number. -/
def intChars (i : Int) : List Char :=
  if i < 0 then '-' :: natChars i.natAbs else natChars i.natAbs

mutual

/-- Characters of `JSON.stringify(v)` (no added whitespace). -/
def jsonChars : Json → List Char
  | .jnull => ['n', 'u', 'l', 'l']
  | .jbool true => ['t', 'r', 'u', 'e']
  | .jbool false => ['f', 'a', 'l', 's', 'e']
  | .jnum n => intChars n
  | .jstr s => strChars s
  | .jarr xs => '[' :: arrChars xs ++ [']']
  | .jobj fs => '\x7b' :: objChars fs ++ ['\x7d']

/-- Comma-joined serialized array elements. -/
def arrChars : List Json → List Char
  | [] => []
  | x :: xs => jsonChars x ++ arrSep xs

/-- Separator-prefixed tail of a serialized array. -/
def arrSep : List Json → List Char
  | [] => []
  | x :: xs => ',' :: jsonChars x ++ arrSep xs

/-- Comma-joined serialized object members (`"key":value`). -/
def objChars : List (String × Json) → List Char
  | [] => []
  | (k, v) :: fs => strChars k ++ ':' :: jsonChars v ++ objSep fs

/-- Separator-prefixed tail of a serialized object. -/
def objSep : List (String × Json) → List Char
  | [] => []
  | (k, v) :: fs => ',' :: strChars k ++ ':' :: jsonChars v ++ objSep fs

end

/-- Model of `JSON.stringify`. -/
def stringifyJson (j : Json) : String :=
  String.mk (jsonChars j)

/-- JSON insignificant whitespace. -/
def isJsonWs (c : Char) : Bool :=
  c = ' ' ∨ c = '\t' ∨ c = '\n' ∨ c = '\r'

/-- Drops leading JSON whitespace. -/
def dropWs (cs : List Char) : List Char :=
  cs.dropWhile isJsonWs

/-- Value of a hexadecimal digit character. -/
def hexNibble (c : Char) : Option Nat :=
  if '0' ≤ c ∧ c ≤ '9' then some (c.toNat - 48)
  else if 'a' ≤ c ∧ c ≤ 'f' then some (c.toNat - 87)
  else if 'A' ≤ c ∧ c ≤ 'F' then some (c.toNat - 55)
  else none

/-- Named single-character escapes of the JSON grammar. -/
def unescapeChar : Char → Option Char
  | '"' => some '"'
  | '\\' => some '\\'
  | '/' => some '/'
  | 'b' => some '\x08'
  | 'f' => some '\x0c'
  | 'n' => some '\n'
  | 'r' => some '\r'
  | 't' => some '\t'
  | _ => none

/-- Parses the body of a string literal (the opening quote already
consumed), returning the content characters and the input after the
closing quote. Unescaped control characters are rejected, as in JSON. -/
def parseStringBody : List Char → Option (List Char × List Char)
  | [] => none
  | '"' :: rest => some ([], rest)
  | '\\' :: 'u' :: a :: b :: c :: d :: rest =>
    match hexNibble a, hexNibble b, hexNibble c, hexNibble d with
    | some va, some vb, some vc, some vd =>
      (parseStringBody rest).map fun p =>
        (Char.ofNat (((va * 16 + vb) * 16 + vc) * 16 + vd) :: p.1, p.2)
    | _, _, _, _ => none
  | '\\' :: e :: rest =>
    match unescapeChar e with
    | some c => (parseStringBody rest).map fun p => (c :: p.1, p.2)
    | none => none
  | c :: rest =>
    if c.toNat < 32 then none
    else (parseStringBody rest).map fun p => (c :: p.1, p.2)

/-- Value of a nonempty digit run. -/
def digitsVal (ds : List Char) : Nat :=
  ds.foldl (fun a c => a * 10 + (c.toNat - 48)) 0

/-- Parses a JSON natural-number literal: a nonempty digit run with no
leading zero (a lone zero is allowed). -/
def parseNat (cs : List Char) : Option (Nat × List Char) :=
  let ds := cs.takeWhile Char.isDigit
  if ds = [] then none
  else if ds.head? = some '0' ∧ 1 < ds.length then none
  else some (digitsVal ds, cs.dropWhile Char.isDigit)

mutual

/-- Fueled recursive-descent parser for one JSON value; consumes leading
whitespace itself. -/
def parseValue : Nat → List Char → Option (Json × List Char)
  | 0, _ => none
  | fuel + 1, cs =>
    match dropWs cs with
    | 'n' :: 'u' :: 'l' :: 'l' :: r => some (.jnull, r)
    | 't' :: 'r' :: 'u' :: 'e' :: r => some (.jbool true, r)
    | 'f' :: 'a' :: 'l' :: 's' :: 'e' :: r => some (.jbool false, r)
    | '"' :: r => (parseStringBody r).map fun p => (.jstr (String.mk p.1), p.2)
    | '[' :: r =>
      match dropWs r with
      | ']' :: r1 => some (.jarr [], r1)
      | r1 => (parseItems fuel r1).map fun p => (.jarr p.1, p.2)
    | '\x7b' :: r =>
      match dropWs r with
      | '\x7d' :: r1 => some (.jobj [], r1)
      | r1 => (parseMembers fuel r1).map fun p => (.jobj p.1, p.2)
    | '-' :: r => (parseNat r).map fun p => (.jnum (-(p.1 : Int)), p.2)
    | r => (parseNat r).map fun p => (.jnum (p.1 : Int), p.2)

/-- Parses one or more comma-separated array elements up to the closing
bracket (the empty array is handled by `parseValue`). -/
def parseItems : Nat → List Char → Option (List Json × List Char)
  | 0, _ => none
  | fuel + 1, cs =>
    match parseValue fuel cs with
    | none => none
    | some (v, r) =>
      match dropWs r with
      | ',' :: r1 => (parseItems fuel r1).map fun p => (v :: p.1, p.2)
      | ']' :: r1 => some ([v], r1)
      | _ => none

/-- Parses one or more comma-separated object members up to the closing
brace (the empty object is handled by `parseValue`). -/
def parseMembers : Nat → List Char → Option (List (String × Json) × List Char)
  | 0, _ => none
  | fuel + 1, cs =>
    match dropWs cs with
    | '"' :: r =>
      match parseStringBody r with
      | none => none
      | some (kcs, r1) =>
        match dropWs r1 with
        | ':' :: r2 =>
          match parseValue fuel r2 with
          | none => none
          | some (v, r3) =>
            match dropWs r3 with
            | ',' :: r4 => (parseMembers fuel r4).map fun p => ((String.mk kcs, v) :: p.1, p.2)
            | '\x7d' :: r4 => some ([(String.mk kcs, v)], r4)
            | _ => none
        | _ => none
    | _ => none

end

/-- Model of `JSON.parse`: `none` where `JSON.parse` throws. The fuel is
an upper bound on recursion depth; two units per input character always
suffice, so the bound never cuts off an otherwise well-formed parse. -/
def parseJson (s : String) : Option Json :=
  let cs := s.toList
  match parseValue (2 * cs.length + 2) cs with
  | some (j, r) => if dropWs r = [] then some j else none
  | none => none

/-! ### String coercion (`String(v)`), as `localStorage.setItem` applies
to a non-string value -/

mutual

/-- Characters of `String(v)`. Arrays display as their comma-joined
elements (with `null` elements displaying as nothing), objects as
`[object Object]`. -/
def displayChars : Json → List Char
  | .jnull => ['n', 'u', 'l', 'l']
  | .jbool true => ['t', 'r', 'u', 'e']
  | .jbool false => ['f', 'a', 'l', 's', 'e']
  | .jnum n => intChars n
  | .jstr s => s.toList
  | .jarr xs => arrDisplay xs
  | .jobj _ => "[object Object]".toList

/-- Comma-joined display of array elements. -/
def arrDisplay : List Json → List Char
  | [] => []
  | x :: xs => elemDisplay x ++ arrDisplayTail xs

/-- Separator-prefixed display of the remaining array elements. -/
def arrDisplayTail : List Json → List Char
  | [] => []
  | x :: xs => ',' :: elemDisplay x ++ arrDisplayTail xs

/-- Display of one array element: `null` displays as the empty string. -/
def elemDisplay : Json → List Char
  | .jnull => []
  | j => displayChars j

end

/-- Coercion of a possibly-`undefined` value to a string, as performed by
`localStorage.setItem` and by `new Error(message)`. -/
def jsToStr : Js → String
  | none => "undefined"
  | some j => String.mk (displayChars j)

/-- Numeric coercion `ToNumber(v)`, as performed by the `>` comparison of
the expiry check; `none` stands for `NaN`. Arrays coerce through their
display string (`ToPrimitive` yields `toString` for arrays), objects
display as `[object Object]`, which reads as `NaN`. -/
def jsToNumber : Js → Option Int
  | none => none
  | some .jnull => some 0
  | some (.jbool b) => some (if b then 1 else 0)
  | some (.jnum n) => some n
  | some (.jstr s) => strToNumber s
  | some (.jarr xs) => strToNumber (String.mk (displayChars (.jarr xs)))
  | some (.jobj _) => none

/-- Comparison `a > v` with `a` a number and `v` an arbitrary value, as in
the expiry test `Date.now() / 1000 > payload.exp`: coerce `v` to a
number; any comparison against `NaN` is false. -/
def jsGt (a : Int) (v : Js) : Bool :=
  match jsToNumber v with
  | some m => a > m
  | none => false

/-! ### Session Store (`localStorage` restricted to the two session keys)
and the Token Codec (src/src/auth/jwt.ts) -/

/-- Durable storage state: the `token` and `user` slots of
`localStorage`; `none` models an absent key (`getItem` returning
`null`). -/
structure Store where
  token : Option String
  user : Option String
deriving Repr, DecidableEq

/-- Model of `decodeBase64UrlJSON`: translate URL-safe base64 to standard
base64, decode via `atob`, parse via `JSON.parse`; `none` where either
library call throws. -/
def decodeBase64UrlJSON (b64url : String) : Option Json :=
  match atob (String.mk (b64urlToB64 b64url.toList)) with
  | none => none
  | some json => parseJson json

/-- Model of `readJwt`: read the stored token, split on dots, decode the
second segment, and reject a payload whose truthy `exp` lies strictly in
the past. Every failure path of the source returns `null`, so the model
returns `Json.jnull` there; a successfully decoded payload is returned
unvalidated. -/
def readJwt (st : Store) (now : Int) : Json :=
  match st.token with
  | none => .jnull
  | some raw =>
    if raw = "" then .jnull
    else
      let parts := splitDots raw.toList
      if parts.length < 2 then .jnull
      else
        match decodeBase64UrlJSON (String.mk ((parts.get? 1).getD [])) with
        | none => .jnull
        | some payload =>
          if jsTruthy (optChain payload "exp") ∧ jsGt now (optChain payload "exp") then .jnull
          else payload

/-- Model of `saveSession`: write the token slot unconditionally; write
the serialized user record only when the `user` argument is truthy. -/
def saveSession (token : String) (user : Js) (st : Store) : Store :=
  let st1 : Store := { st with token := some token }
  match user with
  | some u => if u.truthy then { st1 with user := some (stringifyJson u) } else st1
  | none => st1

/-- Model of `clearSession`: remove both slots. -/
def clearSession (_st : Store) : Store :=
  { token := none, user := none }

/-! ### Auth Context (the AuthProvider) -/

/-- In-memory Current User, with the loosely-typed runtime field values
the provider actually stores (`Js`, since e.g. `role` can be `undefined`
when the decoded payload lacks it). -/
structure CurrentUser where
  userId : Js
  email : Js
  name : Js
  role : Js

/-- Result of the hydration effect: the derived user, the (possibly
cleared) storage, and the final value of the hydration flag. -/
structure HydrateResult where
  user : Option CurrentUser
  store : Store
  hydrating : Bool

/-- Token-decoding arm of the hydration effect (the `else` branch taken
when no cached user record is present). -/
def hydrateFromToken (st : Store) (now : Int) : HydrateResult :=
  let payload := readJwt st now
  if jsTruthy (optChain payload "exp") ∧ jsGt now (optChain payload "exp") then
    { user := none, store := clearSession st, hydrating := false }
  else if jsTruthy (optChain payload "email") ∧ jsTruthy (optChain payload "role") then
    { user := some
        { userId := jsCoalesce (getField payload "sub") (some (.jnum 0))
          email := getField payload "email"
          name := jsCoalesce (getField payload "name") (some (.jstr ""))
          role := getField payload "role" }
      store := st
      hydrating := false }
  else { user := none, store := st, hydrating := false }

/-- Model of the AuthProvider hydration `useEffect` (Session Derivation):
prefer a truthy cached user record, else derive from the token; any
exception (an unparsable cached record, or the member access on a parsed
`null`) is swallowed, leaving the user `null`; the hydration flag is
false afterwards on every path. -/
def hydrate (st : Store) (now : Int) : HydrateResult :=
  match st.user with
  | some rawUser =>
    if rawUser = "" then hydrateFromToken st now
    else
      match parseJson rawUser with
      | none => { user := none, store := st, hydrating := false }
      | some .jnull => { user := none, store := st, hydrating := false }
      | some parsed =>
        { user := some
            { userId := jsCoalesce (getField parsed "userId")
                (jsCoalesce (getField parsed "id") (some (.jnum 0)))
              email := jsCoalesce (getField parsed "email") (some (.jstr ""))
              name := jsCoalesce (getField parsed "name") (some (.jstr ""))
              role := getField parsed "role" }
          store := st
          hydrating := false }
  | none => hydrateFromToken st now

/-- Failure outcomes of `signIn`: a non-success HTTP response (with the
extracted message), a success whose body is not JSON (`res.json()`
rejects), a success whose body is the JSON `null` (the member access
`data.access_token` throws), and the failed fallback decode. -/
inductive SignInErr where
  | loginFailed (msg : String)
  | bodyNotJson
  | nullBody
  | invalidToken
deriving Repr, DecidableEq

/-- Outcome of `signIn`: the storage state after the call, and either the
established Current User with the role-based redirect target, or the
thrown error. -/
structure SignInOutcome where
  store : Store
  result : Except SignInErr (CurrentUser × String)

/-- Final stretch of `signIn`: build the Current User from the resolved
fields and pick the role-based redirect (strict string comparison in the
`switch`, anything else falling to `/dashboard`). -/
def signInFinish (st1 : Store) (emailOut nameOut role userId : Js) : SignInOutcome :=
  let user : CurrentUser :=
    { userId := userId
      email := emailOut
      name := jsCoalesce nameOut (some (.jstr ""))
      role := role }
  let dest : String :=
    match role with
    | some (.jstr "STUDENT") => "/student"
    | some (.jstr "INSTRUCTOR") => "/instructor"
    | some (.jstr "ADMIN") => "/admin"
    | _ => "/dashboard"
  { store := st1, result := .ok (user, dest) }

/-- Body of `signIn` after a success response with JSON body `data` (a
value other than `null`): persist the session, resolve identity from the
body's user object, falling back to decoding the freshly saved token,
throwing `Invalid token` when that decode yields a falsy payload. -/
def signInResolve (data : Json) (st : Store) (now : Int) : SignInOutcome :=
  let st1 := saveSession (jsToStr (getField data "access_token")) (getField data "user") st
  let u := getField data "user"
  let fields : Js × Js × Js × Js :=
    match u with
    | some uj =>
      if uj.truthy then
        (jsCoalesce (getField uj "email") (some (.jstr "")),
         jsCoalesce (getField uj "name") (some (.jstr "")),
         getField uj "role",
         jsCoalesce (getField uj "userId") (jsCoalesce (getField uj "id") (some (.jnum 0))))
      else (none, none, none, some (.jnum 0))
    | none => (none, none, none, some (.jnum 0))
  let emailOut := fields.1
  let nameOut := fields.2.1
  let role := fields.2.2.1
  let userId := fields.2.2.2
  if ¬ jsTruthy emailOut ∨ ¬ jsTruthy role then
    let payload := readJwt st1 now
    if ¬ payload.truthy then { store := st1, result := .error .invalidToken }
    else
      let emailOut1 := if ¬ jsTruthy emailOut then getField payload "email" else emailOut
      let nameOut1 := if ¬ jsTruthy nameOut then jsCoalesce (getField payload "name") (some (.jstr "")) else nameOut
      let role1 := if ¬ jsTruthy role then getField payload "role" else role
      let userId1 := if ¬ jsTruthy userId then
          (match getField payload "sub" with
           | some (.jnum n) => some (Json.jnum n)
           | _ => some (Json.jnum 0))
        else userId
      signInFinish st1 emailOut1 nameOut1 role1 userId1
  else signInFinish st1 emailOut nameOut role userId

/-- Model of `signIn`. The network call is a parameter: `ok` is
`res.ok`, and `body` is the JSON value of the response body (`none` when
the body is not JSON). On a non-success response the extracted `message`
(or the default) is thrown and storage is untouched; on success the flow
continues in `signInResolve`. -/
def signIn (ok : Bool) (body : Option Json) (st : Store) (now : Int) : SignInOutcome :=
  if ok then
    match body with
    | none => { store := st, result := .error .bodyNotJson }
    | some .jnull => { store := st, result := .error .nullBody }
    | some data => signInResolve data st now
  else
    let j := body.getD (.jobj [])
    let m := optChain j "message"
    { store := st
      result := .error (.loginFailed (if jsTruthy m then jsToStr m else "Login failed")) }

/-- In-memory provider state affected by `signOut`: the storage, the
current user and the pending navigation target. -/
structure AppState where
  store : Store
  user : Option CurrentUser
  redirect : Option String

/-- Model of `signOut`: clear the session, null the user, navigate to the
login entry point. -/
def signOut (s : AppState) : AppState :=
  { store := clearSession s.store, user := none, redirect := some "/login" }

/-! ### Route Guard (PrivateRoute in src/src/components/PageLoader.tsx) -/

/-- Render outcome of the guard: render nothing, render a redirect
(`Navigate`) to the given path, or render the guarded children. -/
inductive RenderResult where
  | nothing
  | redirect (dest : String)
  | content
deriving Repr, DecidableEq

/-- Model of `PrivateRoute`: nothing while hydrating; `/login` when the
user or the stored token is falsy; `/dashboard` when an allow-list is
given (any array, even empty, is truthy) and does not contain the user's
role under strict equality; otherwise the guarded content. -/
def privateRoute (user : Option CurrentUser) (hydrating : Bool) (token : Option String)
    (roles : Option (List String)) : RenderResult :=
  if hydrating then .nothing
  else
    match user with
    | none => .redirect "/login"
    | some u =>
      if token = none ∨ token = some "" then .redirect "/login"
      else
        match roles with
        | none => .content
        | some rs =>
          if rs.any (fun r => match u.role with | some (.jstr s) => s = r | _ => false)
          then .content
          else .redirect "/dashboard"

/-! ## Theorems about the claims -/

/-- C10: `saveSession` called with a token but no user record writes only
the token slot and leaves the user slot's previous value unchanged, so a
previously cached user record survives such a save (the two durable slots
are not always written together). -/
theorem c10_saveSession_without_user_frame (t : String) (st : Store) :
    (saveSession t none st).user = st.user ∧ (saveSession t none st).token = some t :=
  ⟨rfl, rfl⟩

/-- C6: `signOut` is idempotent — two consecutive calls from any state end
in exactly the state one call produces — and that state has a null user
and both storage slots empty (with the redirect to the login entry
point); as a total function it cannot fail. -/
theorem c6_signOut_idempotent_and_clears (s : AppState) :
    signOut (signOut s) = signOut s ∧
    (signOut s).user = none ∧
    (signOut s).store = { token := none, user := none } ∧
    (signOut s).redirect = some "/login" :=
  ⟨rfl, rfl, rfl, rfl⟩

/-- C7: while the hydration flag is true the Route Guard renders nothing —
no guarded content and no redirect — for every user, token and role
allow-list. -/
theorem c7_guard_nothing_while_hydrating (user : Option CurrentUser)
    (token : Option String) (roles : Option (List String)) :
    privateRoute user true token roles = RenderResult.nothing :=
  rfl

/-- C8: with hydration finished and a truthy user and token, a non-empty
role allow-list not containing the user's role makes the Route Guard
redirect to `/dashboard` (no guarded content); a membership hit — or an
absent allow-list — renders the guarded content unchanged. -/
theorem c8_guard_role_allowlist (u : CurrentUser) (token : Option String)
    (rs : List String) (r : String)
    (htok : ¬ (token = none ∨ token = some ""))
    (hrole : u.role = some (.jstr r)) (_hne : rs ≠ []) :
    (r ∉ rs → privateRoute (some u) false token (some rs) = .redirect "/dashboard") ∧
    (r ∈ rs → privateRoute (some u) false token (some rs) = .content) ∧
    privateRoute (some u) false token none = .content := by
  refine ⟨fun hout => ?_, fun hin => ?_, ?_⟩ <;>
    simp only [privateRoute, if_neg htok, hrole, Bool.false_eq_true, if_false]
  · have hany : (rs.any fun x => decide (r = x)) = false := by
      cases h : rs.any fun x => decide (r = x)
      · rfl
      · exfalso
        obtain ⟨x, hx, hdx⟩ := List.any_eq_true.mp h
        exact hout (by rw [of_decide_eq_true hdx]; exact hx)
    simp [hany]
  · have hany : (rs.any fun x => decide (r = x)) = true := by
      simp only [List.any_eq_true, decide_eq_true_eq]
      exact ⟨r, hin, rfl⟩
    simp [hany]

/-- C8 witness: a STUDENT user with a stored token against the allow-list
`[INSTRUCTOR]` is redirected to `/dashboard`; against `[STUDENT]`, or with
no allow-list, the content renders. -/
theorem c8_guard_role_allowlist_witness :
    privateRoute (some ⟨some (.jnum 1), some (.jstr "s@x"), some (.jstr "S"),
        some (.jstr "STUDENT")⟩) false (some "tok") (some ["INSTRUCTOR"]) =
      .redirect "/dashboard" ∧
    privateRoute (some ⟨some (.jnum 1), some (.jstr "s@x"), some (.jstr "S"),
        some (.jstr "STUDENT")⟩) false (some "tok") (some ["STUDENT"]) = .content ∧
    privateRoute (some ⟨some (.jnum 1), some (.jstr "s@x"), some (.jstr "S"),
        some (.jstr "STUDENT")⟩) false (some "tok") none = .content := by
  refine ⟨?_, ?_, ?_⟩
  · exact (c8_guard_role_allowlist _ _ _ "STUDENT" (by simp) rfl (by simp)).1 (by simp)
  · exact (c8_guard_role_allowlist _ _ _ "STUDENT" (by simp) rfl (by simp)).2.1 (by simp)
  · exact (c8_guard_role_allowlist _ _ ["STUDENT"] "STUDENT" (by simp) rfl (by simp)).2.2

/-- C5: the Token Codec is total — the embedding returns a value (`null`
or a claims object) for every storage state by construction, mirroring
the catch-all of the source — and every decode failure yields `null`: an
absent token slot, a token with fewer than two dot-separated segments,
and a middle segment whose base64 decode or JSON parse fails (the two
ways `decodeBase64UrlJSON` can throw) all make `readJwt` return `null`. -/
theorem c5_readJwt_decode_failure_null (st : Store) (now : Int) :
    (st.token = none → readJwt st now = Json.jnull) ∧
    (∀ raw, st.token = some raw →
      (splitDots raw.toList).length < 2 ∨
        decodeBase64UrlJSON (String.mk (((splitDots raw.toList).get? 1).getD [])) = none →
      readJwt st now = Json.jnull) := by
  constructor
  · intro h
    simp only [readJwt, h]
  · intro raw hT hfail
    simp only [readJwt, hT]
    by_cases hraw : raw = ""
    · rw [if_pos hraw]
    · rw [if_neg hraw]
      by_cases hlen : (splitDots raw.toList).length < 2
      · simp only [if_pos hlen]
      · rcases hfail with h | h
        · exact absurd h hlen
        · simp only [if_neg hlen, h]

/-- C5 witness: a token without a second segment (`"abc"`) decodes to
`null`. -/
theorem c5_readJwt_decode_failure_null_witness :
    readJwt ⟨some "abc", some "cached"⟩ 7 = Json.jnull :=
  (c5_readJwt_decode_failure_null ⟨some "abc", some "cached"⟩ 7).2 "abc" rfl
    (Or.inl (by decide))

/-- C9 counterexample: the claim says every decoded payload with an `exp`
strictly below the current time is suppressed by `readJwt`; but a payload
with `exp = 0` (strictly below `now = 1000`) is returned as-is, because
the expiry guard first tests `payload?.exp` for truthiness and `0` is
falsy. -/
theorem c9_counterexample_exp_zero :
    decodeBase64UrlJSON "eyJleHAiOjAsImVtYWlsIjoiYUBiIiwicm9sZSI6IlNUVURFTlQifQ==" =
      some (Json.jobj [("exp", Json.jnum 0), ("email", Json.jstr "a@b"),
        ("role", Json.jstr "STUDENT")]) ∧
    (0 : Int) < 1000 ∧
    readJwt ⟨some "h.eyJleHAiOjAsImVtYWlsIjoiYUBiIiwicm9sZSI6IlNUVURFTlQifQ==.s", none⟩ 1000 =
      Json.jobj [("exp", Json.jnum 0), ("email", Json.jstr "a@b"),
        ("role", Json.jstr "STUDENT")] ∧
    Json.jobj [("exp", Json.jnum 0), ("email", Json.jstr "a@b"),
        ("role", Json.jstr "STUDENT")] ≠ Json.jnull :=
  ⟨rfl, by decide, rfl, fun h => Json.noConfusion h⟩

/-- C9 amended: the Token Codec enforces expiry for truthy expiry stamps —
for every stored token whose payload decodes with a nonzero numeric `exp`
strictly less than the current time, `readJwt` returns `null` (the
`exp = 0` edge case escapes the truthiness guard, see the
counterexample). -/
theorem c9_readJwt_truthy_expired_null (st : Store) (now : Int) (raw : String)
    (payload : Json) (e : Int)
    (hT : st.token = some raw) (hraw : raw ≠ "")
    (hparts : ¬ (splitDots raw.toList).length < 2)
    (hdec : decodeBase64UrlJSON (String.mk (((splitDots raw.toList).get? 1).getD []))
      = some payload)
    (hexp : optChain payload "exp" = some (.jnum e)) (hez : e ≠ 0) (hlt : e < now) :
    readJwt st now = Json.jnull := by
  simp only [readJwt, hT]
  rw [if_neg hraw]
  simp only [if_neg hparts, hdec]
  have h1 : jsTruthy (optChain payload "exp") = true := by
    rw [hexp]
    simp [jsTruthy, Json.truthy, hez]
  have h2 : jsGt now (optChain payload "exp") = true := by
    rw [hexp]
    simp [jsGt, jsToNumber, hlt]
  simp [h1, h2]

/-- C9 amended witness: a token whose payload carries `exp = 1` is
suppressed at `now = 1000`. -/
theorem c9_readJwt_truthy_expired_null_witness :
    readJwt ⟨some "h.eyJlbWFpbCI6ImFAYiIsInJvbGUiOiJTVFVERU5UIiwiZXhwIjoxfQ==.s", none⟩ 1000 =
      Json.jnull :=
  c9_readJwt_truthy_expired_null _ 1000
    "h.eyJlbWFpbCI6ImFAYiIsInJvbGUiOiJTVFVERU5UIiwiZXhwIjoxfQ==.s"
    (Json.jobj [("email", Json.jstr "a@b"), ("role", Json.jstr "STUDENT"),
      ("exp", Json.jnum 1)]) 1
    rfl (by decide) (by decide) rfl rfl (by decide) (by decide)

/-- C1: evaluation of the hydration effect at a failing input for the
claim. The stored token decodes to claims with `exp = 1`, strictly below
`now = 1000`, and no cached user record is present; hydration leaves the
Current User `null` as claimed, but the two storage slots are NOT
removed — the expired token is still in storage afterwards. (`readJwt`
already returns `null` for an expired token, so the `clearSession` branch
of the effect — the code written for exactly this case — is unreachable.) -/
theorem c1_expired_token_storage_not_cleared :
    decodeBase64UrlJSON "eyJlbWFpbCI6ImFAYiIsInJvbGUiOiJTVFVERU5UIiwiZXhwIjoxfQ==" =
      some (Json.jobj [("email", Json.jstr "a@b"), ("role", Json.jstr "STUDENT"),
        ("exp", Json.jnum 1)]) ∧
    (1 : Int) < 1000 ∧
    hydrate ⟨some "h.eyJlbWFpbCI6ImFAYiIsInJvbGUiOiJTVFVERU5UIiwiZXhwIjoxfQ==.s", none⟩ 1000 =
      ⟨none, ⟨some "h.eyJlbWFpbCI6ImFAYiIsInJvbGUiOiJTVFVERU5UIiwiZXhwIjoxfQ==.s", none⟩, false⟩ ∧
    (⟨some "h.eyJlbWFpbCI6ImFAYiIsInJvbGUiOiJTVFVERU5UIiwiZXhwIjoxfQ==.s", none⟩ : Store) ≠
      ⟨none, none⟩ :=
  ⟨rfl, by decide, rfl, by decide⟩

/-- Property access and optional chaining agree away from `null`. -/
theorem optChain_eq_getField {p : Json} (h : p ≠ .jnull) (k : String) :
    optChain p k = getField p k := by
  cases p
  · exact absurd rfl h
  · rfl
  · rfl
  · rfl
  · rfl
  · rfl

/-- Helper: whatever `signInResolve` does afterwards — throw `Invalid
token` or finish — the storage it leaves behind is exactly the one
`saveSession` produced at its start. -/
theorem signInResolve_store (data : Json) (st : Store) (now : Int) :
    (signInResolve data st now).store =
      saveSession (jsToStr (getField data "access_token")) (getField data "user") st := by
  simp only [signInResolve, signInFinish]
  split
  · split
    · rfl
    · rfl
  · rfl

/-- C2 counterexample: the login response `{}` (success status, empty JSON
body) makes `signIn` throw the `Invalid token` error, yet the token slot
has already been overwritten (with the string coercion `"undefined"` of
the absent `access_token`): the persistent session slots are NOT
unchanged from their pre-call values, so sign-in partially succeeded. -/
theorem c2_counterexample_partial_persist :
    (signIn true (some (Json.jobj [])) ⟨some "old", some "olduser"⟩ 0).result =
      .error .invalidToken ∧
    (signIn true (some (Json.jobj [])) ⟨some "old", some "olduser"⟩ 0).store.token =
      some "undefined" ∧
    (⟨some "old", some "olduser"⟩ : Store).token ≠ some "undefined" :=
  ⟨rfl, rfl, by decide⟩

/-- C2 amended: sign-in persists first and resolves identity afterwards.
On a non-success response, a non-JSON body, or a JSON `null` body it
throws with storage untouched; for every other JSON body it unconditionally
persists the coerced token and any truthy user payload — so when the
fallback decode then throws `Invalid token`, the freshly returned token is
already in storage (sign-in can partially succeed, contrary to the
original claim). -/
theorem c2_signIn_persists_before_resolving (ok : Bool) (body : Option Json)
    (st : Store) (now : Int) :
    (ok = false → (signIn ok body st now).store = st) ∧
    (ok = true → body = none → (signIn ok body st now).store = st) ∧
    (ok = true → body = some Json.jnull → (signIn ok body st now).store = st) ∧
    (∀ data, ok = true → body = some data → data ≠ Json.jnull →
      (signIn ok body st now).store =
        saveSession (jsToStr (getField data "access_token")) (getField data "user") st) := by
  refine ⟨fun hok => ?_, fun hok hb => ?_, fun hok hb => ?_, fun data hok hb hnn => ?_⟩
  · subst hok
    simp [signIn]
  · subst hok
    subst hb
    simp [signIn]
  · subst hok
    subst hb
    simp [signIn]
  · subst hok
    subst hb
    have hstep : signIn true (some data) st now = signInResolve data st now := by
      cases data
      · exact absurd rfl hnn
      · rfl
      · rfl
      · rfl
      · rfl
      · rfl
    rw [hstep]
    exact signInResolve_store data st now

/-- C2 amended witness: a success response whose body carries only an
`access_token` persists that token even though identity resolution is
still ahead. -/
theorem c2_signIn_persists_before_resolving_witness :
    (signIn true (some (Json.jobj [("access_token", Json.jstr "tok")])) ⟨none, none⟩ 0).store =
      saveSession
        (jsToStr (getField (Json.jobj [("access_token", Json.jstr "tok")]) "access_token"))
        (getField (Json.jobj [("access_token", Json.jstr "tok")]) "user") ⟨none, none⟩ :=
  (c2_signIn_persists_before_resolving true (some (Json.jobj [("access_token", Json.jstr "tok")]))
    ⟨none, none⟩ 0).2.2.2 (Json.jobj [("access_token", Json.jstr "tok")]) rfl rfl
    (fun h => Json.noConfusion h)

/-- C4: with no cached user record, a stored token decoding to claims
whose expiry is absent or strictly in the future and which carry truthy
`email` and `role` makes hydration adopt the claims: the Current User's
email and role are those claim fields, the user id is the `sub` claim or
`0`, the name is the `name` claim or the empty string, storage is left
unchanged, and the hydration flag ends up finished (`false`). -/
theorem c4_hydrate_unexpired_claims (st : Store) (now : Int) (raw : String)
    (payload em rl : Json)
    (hu : st.user = none ∨ st.user = some "")
    (hT : st.token = some raw) (hraw : raw ≠ "")
    (hparts : ¬ (splitDots raw.toList).length < 2)
    (hdec : decodeBase64UrlJSON (String.mk (((splitDots raw.toList).get? 1).getD []))
      = some payload)
    (hexp : optChain payload "exp" = none ∨
      ∃ e : Int, optChain payload "exp" = some (.jnum e) ∧ now < e)
    (hem : optChain payload "email" = some em) (hemT : em.truthy = true)
    (hrl : optChain payload "role" = some rl) (hrlT : rl.truthy = true) :
    hydrate st now =
      ⟨some ⟨jsCoalesce (getField payload "sub") (some (.jnum 0)),
             some em,
             jsCoalesce (getField payload "name") (some (.jstr "")),
             some rl⟩, st, false⟩ := by
  have hcf : ¬ (jsTruthy (optChain payload "exp") = true ∧
      jsGt now (optChain payload "exp") = true) := by
    rcases hexp with h | ⟨e, h, hlt⟩
    · rw [h]
      rintro ⟨h1, -⟩
      exact Bool.noConfusion h1
    · rw [h]
      rintro ⟨-, hgt⟩
      simp only [jsGt, jsToNumber, decide_eq_true_eq] at hgt
      omega
  have hnn : payload ≠ Json.jnull := by
    intro h
    rw [h] at hem
    exact Option.noConfusion hem
  have hread : readJwt st now = payload := by
    simp only [readJwt, hT]
    rw [if_neg hraw]
    simp only [if_neg hparts, hdec]
    rw [if_neg hcf]
  have hmain : hydrateFromToken st now =
      ⟨some ⟨jsCoalesce (getField payload "sub") (some (.jnum 0)),
             some em,
             jsCoalesce (getField payload "name") (some (.jstr "")),
             some rl⟩, st, false⟩ := by
    simp only [hydrateFromToken, hread]
    rw [if_neg hcf]
    have hemG : getField payload "email" = some em := by
      rw [← optChain_eq_getField hnn "email"]
      exact hem
    have hrlG : getField payload "role" = some rl := by
      rw [← optChain_eq_getField hnn "role"]
      exact hrl
    rw [if_pos ⟨by rw [hem]; exact hemT, by rw [hrl]; exact hrlT⟩, hemG, hrlG]
  rcases hu with h | h
  · simp only [hydrate, h]
    exact hmain
  · simp only [hydrate, h]
    rw [if_pos trivial]
    exact hmain

/-- C4 witness: a three-segment token whose payload carries `sub`,
`email`, `name`, `role` and a far-future expiry hydrates (at
`now = 1000`, with empty user slot) into exactly those fields. -/
theorem c4_hydrate_unexpired_claims_witness :
    hydrate ⟨some "h.eyJzdWIiOjcsImVtYWlsIjoiYUBiLmNvbSIsIm5hbWUiOiJBbm4iLCJyb2xlIjoiU1RVREVOVCIsImV4cCI6OTk5OTk5OTk5OX0=.s", none⟩ 1000 =
      ⟨some ⟨jsCoalesce (getField (Json.jobj [("sub", Json.jnum 7),
               ("email", Json.jstr "a@b.com"), ("name", Json.jstr "Ann"),
               ("role", Json.jstr "STUDENT"), ("exp", Json.jnum 9999999999)]) "sub")
               (some (.jnum 0)),
             some (.jstr "a@b.com"),
             jsCoalesce (getField (Json.jobj [("sub", Json.jnum 7),
               ("email", Json.jstr "a@b.com"), ("name", Json.jstr "Ann"),
               ("role", Json.jstr "STUDENT"), ("exp", Json.jnum 9999999999)]) "name")
               (some (.jstr "")),
             some (.jstr "STUDENT")⟩,
       ⟨some "h.eyJzdWIiOjcsImVtYWlsIjoiYUBiLmNvbSIsIm5hbWUiOiJBbm4iLCJyb2xlIjoiU1RVREVOVCIsImV4cCI6OTk5OTk5OTk5OX0=.s", none⟩, false⟩ :=
  c4_hydrate_unexpired_claims _ 1000
    "h.eyJzdWIiOjcsImVtYWlsIjoiYUBiLmNvbSIsIm5hbWUiOiJBbm4iLCJyb2xlIjoiU1RVREVOVCIsImV4cCI6OTk5OTk5OTk5OX0=.s"
    (Json.jobj [("sub", Json.jnum 7), ("email", Json.jstr "a@b.com"),
      ("name", Json.jstr "Ann"), ("role", Json.jstr "STUDENT"),
      ("exp", Json.jnum 9999999999)])
    (Json.jstr "a@b.com") (Json.jstr "STUDENT")
    (Or.inl rfl) rfl (by decide) (by decide) rfl
    (Or.inr ⟨9999999999, rfl, by decide⟩) rfl rfl rfl rfl

/-! ### Round trip of the JSON text codec on the values `saveSession`
serializes, leading to claim C3 -/

/-- Hex digits emitted by the escaper are read back by the parser. -/
theorem hexNibble_digitChar : ∀ k < 16, hexNibble (Nat.digitChar k) = some k := by
  decide

/-- Parsing one escaped character undoes the escaping. -/
theorem parseStringBody_escape (c : Char) (tail : List Char) :
    parseStringBody (escapeChar c ++ tail) =
      (parseStringBody tail).map fun p => (c :: p.1, p.2) := by
  by_cases h1 : c = '"'
  · subst h1
    rfl
  by_cases h2 : c = '\\'
  · subst h2
    rfl
  by_cases h3 : c = '\x08'
  · subst h3
    rfl
  by_cases h4 : c = '\x0c'
  · subst h4
    rfl
  by_cases h5 : c = '\n'
  · subst h5
    rfl
  by_cases h6 : c = '\r'
  · subst h6
    rfl
  by_cases h7 : c = '\t'
  · subst h7
    rfl
  by_cases h8 : c.toNat < 32
  · have e1 : hexNibble (Nat.digitChar (c.toNat / 16)) = some (c.toNat / 16) :=
      hexNibble_digitChar _ (by omega)
    have e2 : hexNibble (Nat.digitChar (c.toNat % 16)) = some (c.toNat % 16) :=
      hexNibble_digitChar _ (by omega)
    have e0 : hexNibble '0' = some 0 := rfl
    simp only [escapeChar, if_neg h1, if_neg h2, if_neg h3, if_neg h4, if_neg h5,
      if_neg h6, if_neg h7, if_pos h8, List.cons_append, List.nil_append]
    simp only [parseStringBody, e0, e1, e2]
    rw [show ((0 * 16 + 0) * 16 + c.toNat / 16) * 16 + c.toNat % 16 = c.toNat by omega,
      Char.ofNat_toNat]
  · simp only [escapeChar, if_neg h1, if_neg h2, if_neg h3, if_neg h4, if_neg h5,
      if_neg h6, if_neg h7, if_neg h8, List.cons_append, List.nil_append]
    rw [parseStringBody.eq_def]
    simp [h1, h2, h8]

/-- Parsing a fully escaped character run stops exactly at the closing
quote and returns the original characters. -/
theorem parseStringBody_escaped (cs : List Char) : ∀ tail : List Char,
    parseStringBody (cs.flatMap escapeChar ++ '"' :: tail) = some (cs, tail) := by
  induction cs with
  | nil =>
    intro tail
    rfl
  | cons c cs ih =>
    intro tail
    rw [List.flatMap_cons, List.append_assoc, parseStringBody_escape, ih]
    rfl

/-- Dropping whitespace is the identity on input starting with a
non-whitespace character. -/
theorem dropWs_cons_not (c : Char) (t : List Char) (h : isJsonWs c = false) :
    dropWs (c :: t) = c :: t := by
  simp [dropWs, List.dropWhile_cons, h]

/-- A serialized string literal parses back to the original string. -/
theorem parseValue_strChars (f : Nat) (s : String) (rest : List Char) :
    parseValue (f + 1) (strChars s ++ rest) = some (.jstr s, rest) := by
  rw [show strChars s ++ rest = '"' :: (s.toList.flatMap escapeChar ++ '"' :: rest) by
    simp [strChars]]
  simp only [parseValue]
  rw [dropWs_cons_not _ _ (by decide)]
  rw [show (match ('"' :: (s.toList.flatMap escapeChar ++ '"' :: rest) : List Char) with
    | 'n' :: 'u' :: 'l' :: 'l' :: r => some (Json.jnull, r)
    | 't' :: 'r' :: 'u' :: 'e' :: r => some (Json.jbool true, r)
    | 'f' :: 'a' :: 'l' :: 's' :: 'e' :: r => some (Json.jbool false, r)
    | '"' :: r => Option.map (fun p => (Json.jstr (String.mk p.1), p.2)) (parseStringBody r)
    | '[' :: r =>
      match dropWs r with
      | ']' :: r1 => some (Json.jarr [], r1)
      | r1 => Option.map (fun p => (Json.jarr p.1, p.2)) (parseItems f r1)
    | '\x7b' :: r =>
      match dropWs r with
      | '\x7d' :: r1 => some (Json.jobj [], r1)
      | r1 => Option.map (fun p => (Json.jobj p.1, p.2)) (parseMembers f r1)
    | '-' :: r => Option.map (fun p => (Json.jnum (-(p.1 : Int)), p.2)) (parseNat r)
    | r => Option.map (fun p => (Json.jnum (p.1 : Int), p.2)) (parseNat r)) =
      Option.map (fun p => (Json.jstr (String.mk p.1), p.2))
        (parseStringBody (s.toList.flatMap escapeChar ++ '"' :: rest)) from rfl]
  rw [parseStringBody_escaped]
  rfl

/-- Digit characters for values below ten. -/
theorem digitChar_isDigit : ∀ k < 10, (Nat.digitChar k).isDigit = true := by
  decide

/-- Nonzero digits render as nonzero digit characters. -/
theorem digitChar_ne_zero : ∀ k < 10, 1 ≤ k → Nat.digitChar k ≠ '0' := by
  decide

/-- Numeric value of a rendered digit. -/
theorem digitChar_toNat : ∀ k < 10, (Nat.digitChar k).toNat - 48 = k := by
  decide

/-- Unfolding of `natChars` below ten. -/
theorem natChars_small (n : Nat) (h : n < 10) : natChars n = [Nat.digitChar n] := by
  rw [natChars.eq_def]
  simp [h]

/-- Unfolding of `natChars` at ten and above. -/
theorem natChars_big (n : Nat) (h : ¬ n < 10) :
    natChars n = natChars (n / 10) ++ [Nat.digitChar (n % 10)] := by
  rw [natChars.eq_def]
  simp [h]

/-- Digit runs are never empty. -/
theorem natChars_ne_nil (n : Nat) : natChars n ≠ [] := by
  by_cases h : n < 10
  · rw [natChars_small n h]
    simp
  · rw [natChars_big n h]
    simp

/-- Every rendered character of a natural number is a digit. -/
theorem natChars_all_digits (n : Nat) : ∀ c ∈ natChars n, c.isDigit = true := by
  induction n using Nat.strong_induction_on with
  | _ n ih =>
    by_cases h : n < 10
    · rw [natChars_small n h]
      intro c hc
      rw [List.mem_singleton] at hc
      subst hc
      exact digitChar_isDigit n h
    · rw [natChars_big n h]
      intro c hc
      rw [List.mem_append] at hc
      rcases hc with hc | hc
      · exact ih (n / 10) (Nat.div_lt_self (by omega) (by omega)) c hc
      · rw [List.mem_singleton] at hc
        subst hc
        exact digitChar_isDigit _ (Nat.mod_lt _ (by omega))

/-- The rendering of a natural number starts with a digit character. -/
theorem natChars_head_digits (n : Nat) :
    ∃ c t, natChars n = c :: t ∧ c.isDigit = true := by
  obtain ⟨c, t, h⟩ : ∃ c t, natChars n = c :: t := by
    cases hh : natChars n with
    | nil => exact absurd hh (natChars_ne_nil n)
    | cons c t => exact ⟨c, t, rfl⟩
  exact ⟨c, t, h, natChars_all_digits n c (by rw [h]; exact List.mem_cons_self c t)⟩

/-- Positive numbers render without a leading zero. -/
theorem natChars_head_ne_zero :
    ∀ n, 1 ≤ n → ∀ c t, natChars n = c :: t → c ≠ '0' := by
  intro n
  induction n using Nat.strong_induction_on with
  | _ n ih =>
    intro hn c t heq
    by_cases h : n < 10
    · rw [natChars_small n h] at heq
      injection heq with h1 _
      subst h1
      exact digitChar_ne_zero n h hn
    · obtain ⟨c0, t0, h0, _⟩ := natChars_head_digits (n / 10)
      rw [natChars_big n h, h0, List.cons_append] at heq
      injection heq with h1 _
      subst h1
      exact ih (n / 10) (Nat.div_lt_self (by omega) (by omega)) (by omega) c0 t0 h0

/-- Appending one digit multiplies the read value by ten and adds it. -/
theorem digitsVal_append_digit (xs : List Char) (d : Char) :
    digitsVal (xs ++ [d]) = 10 * digitsVal xs + (d.toNat - 48) := by
  simp [digitsVal, List.foldl_append]
  omega

/-- Reading back the rendered digits of a natural number recovers it. -/
theorem digitsVal_natChars (n : Nat) : digitsVal (natChars n) = n := by
  induction n using Nat.strong_induction_on with
  | _ n ih =>
    by_cases h : n < 10
    · rw [natChars_small n h]
      have hv := digitChar_toNat n h
      simp only [digitsVal, List.foldl_cons, List.foldl_nil]
      omega
    · rw [natChars_big n h, digitsVal_append_digit,
        ih (n / 10) (Nat.div_lt_self (by omega) (by omega)),
        digitChar_toNat _ (Nat.mod_lt _ (by omega))]
      omega

/-- Splitting a digit run followed by a non-digit: `takeWhile` keeps
exactly the run and `dropWhile` exactly the remainder. -/
theorem takeWhile_all_append (p : Char → Bool) (xs rest : List Char)
    (hxs : ∀ c ∈ xs, p c = true) (hrest : ∀ c, rest.head? = some c → p c = false) :
    (xs ++ rest).takeWhile p = xs ∧ (xs ++ rest).dropWhile p = rest := by
  induction xs with
  | nil =>
    cases rest with
    | nil => exact ⟨rfl, rfl⟩
    | cons c r =>
      constructor
      · simp [List.takeWhile_cons, hrest c rfl]
      · simp [List.dropWhile_cons, hrest c rfl]
  | cons x xs ih =>
    obtain ⟨iht, ihd⟩ := ih fun c hc => hxs c (List.mem_cons_of_mem _ hc)
    have hx := hxs x (List.mem_cons_self x xs)
    constructor
    · simp [List.takeWhile_cons, hx, iht]
    · simp [List.dropWhile_cons, hx, ihd]

/-- A rendered natural number followed by a non-digit parses back to
itself. -/
theorem parseNat_natChars (n : Nat) (rest : List Char)
    (hrest : ∀ c, rest.head? = some c → c.isDigit = false) :
    parseNat (natChars n ++ rest) = some (n, rest) := by
  obtain ⟨ht, hd⟩ :=
    takeWhile_all_append Char.isDigit (natChars n) rest (natChars_all_digits n) hrest
  simp only [parseNat, ht, hd]
  rw [if_neg (natChars_ne_nil n)]
  by_cases hz : n = 0
  · subst hz
    rw [if_neg]
    · rw [digitsVal_natChars]
    · rw [natChars_small 0 (by omega)]
      rintro ⟨-, hlen⟩
      simp at hlen
  · obtain ⟨c, t, hct, _⟩ := natChars_head_digits n
    rw [if_neg]
    · rw [digitsVal_natChars]
    · rintro ⟨hh, -⟩
      rw [hct] at hh
      simp only [List.head?_cons, Option.some.injEq] at hh
      exact natChars_head_ne_zero n (by omega) c t hct hh

/-- A digit character is none of the characters the value parser
dispatches on, and is not whitespace. -/
theorem digit_char_facts (c : Char) (h : c.isDigit = true) :
    isJsonWs c = false ∧ c ≠ 'n' ∧ c ≠ 't' ∧ c ≠ 'f' ∧ c ≠ '"' ∧ c ≠ '[' ∧
      c ≠ '\x7b' ∧ c ≠ '-' := by
  refine ⟨?_, ?_, ?_, ?_, ?_, ?_, ?_, ?_⟩
  · cases hw : isJsonWs c
    · rfl
    · exfalso
      rcases of_decide_eq_true hw with h1 | h1 | h1 | h1 <;>
        (rw [h1] at h; exact absurd h (by decide))
  all_goals intro heq
  all_goals rw [heq] at h
  all_goals exact absurd h (by decide)

/-- A value whose input starts with a digit is handled by the number
branch of the parser: every other branch of the head dispatch is
refuted. -/
theorem parseValue_to_parseNat (f : Nat) (c0 : Char) (t : List Char)
    (hws : isJsonWs c0 = false) (hn : c0 ≠ 'n') (ht : c0 ≠ 't') (hf : c0 ≠ 'f')
    (hq : c0 ≠ '"') (hlb : c0 ≠ '[') (hob : c0 ≠ '\x7b') (hm : c0 ≠ '-') :
    parseValue (f + 1) (c0 :: t) =
      (parseNat (c0 :: t)).map fun p => (Json.jnum (p.1 : Int), p.2) := by
  simp only [parseValue]
  rw [dropWs_cons_not _ _ hws]
  split
  · next heq =>
    injection heq with h1 _
    exact absurd h1 hn
  · next heq =>
    injection heq with h1 _
    exact absurd h1 ht
  · next heq =>
    injection heq with h1 _
    exact absurd h1 hf
  · next heq =>
    injection heq with h1 _
    exact absurd h1 hq
  · next heq =>
    injection heq with h1 _
    exact absurd h1 hlb
  · next heq =>
    injection heq with h1 _
    exact absurd h1 hob
  · next heq =>
    injection heq with h1 _
    exact absurd h1 hm
  · rfl

/-- A rendered integer followed by a non-digit parses back to itself. -/
theorem parseValue_intChars (f : Nat) (i : Int) (rest : List Char)
    (hrest : ∀ c, rest.head? = some c → c.isDigit = false) :
    parseValue (f + 1) (intChars i ++ rest) = some (.jnum i, rest) := by
  by_cases hi : i < 0
  · rw [show intChars i ++ rest = '-' :: (natChars i.natAbs ++ rest) by
      simp [intChars, if_pos hi]]
    simp only [parseValue]
    rw [dropWs_cons_not _ _ (by decide)]
    rw [show (match ('-' :: (natChars i.natAbs ++ rest) : List Char) with
      | 'n' :: 'u' :: 'l' :: 'l' :: r => some (Json.jnull, r)
      | 't' :: 'r' :: 'u' :: 'e' :: r => some (Json.jbool true, r)
      | 'f' :: 'a' :: 'l' :: 's' :: 'e' :: r => some (Json.jbool false, r)
      | '"' :: r => Option.map (fun p => (Json.jstr (String.mk p.1), p.2)) (parseStringBody r)
      | '[' :: r =>
        match dropWs r with
        | ']' :: r1 => some (Json.jarr [], r1)
        | r1 => Option.map (fun p => (Json.jarr p.1, p.2)) (parseItems f r1)
      | '\x7b' :: r =>
        match dropWs r with
        | '\x7d' :: r1 => some (Json.jobj [], r1)
        | r1 => Option.map (fun p => (Json.jobj p.1, p.2)) (parseMembers f r1)
      | '-' :: r => Option.map (fun p => (Json.jnum (-(p.1 : Int)), p.2)) (parseNat r)
      | r => Option.map (fun p => (Json.jnum (p.1 : Int), p.2)) (parseNat r)) =
        Option.map (fun p => (Json.jnum (-(p.1 : Int)), p.2))
          (parseNat (natChars i.natAbs ++ rest)) from rfl]
    rw [parseNat_natChars _ _ hrest]
    have habs : -(i.natAbs : Int) = i := by omega
    simp only [Option.map_some']
    rw [habs]
  · obtain ⟨c0, t0, h0, hd0⟩ := natChars_head_digits i.natAbs
    obtain ⟨f1, f2, f3, f4, f5, f6, f7, f8⟩ := digit_char_facts c0 hd0
    rw [show intChars i ++ rest = natChars i.natAbs ++ rest by simp [intChars, if_neg hi]]
    rw [h0, List.cons_append, parseValue_to_parseNat f c0 _ f1 f2 f3 f4 f5 f6 f7 f8,
      ← List.cons_append, ← h0, parseNat_natChars _ _ hrest]
    have habs : (i.natAbs : Int) = i := by omega
    simp only [Option.map_some']
    rw [habs]

/-- A serialized scalar value followed by a non-digit parses back to
itself. -/
theorem parseValue_scalar (f : Nat) (v : Json) (rest : List Char)
    (hv : v.isScalar = true)
    (hrest : ∀ c, rest.head? = some c → c.isDigit = false) :
    parseValue (f + 1) (jsonChars v ++ rest) = some (v, rest) := by
  cases v with
  | jnull =>
    rw [show jsonChars Json.jnull ++ rest =
      'n' :: 'u' :: 'l' :: 'l' :: rest by simp [jsonChars]]
    simp only [parseValue]
    rw [dropWs_cons_not _ _ (by decide)]
    rfl
  | jbool b =>
    cases b
    · rw [show jsonChars (Json.jbool false) ++ rest =
        'f' :: 'a' :: 'l' :: 's' :: 'e' :: rest by simp [jsonChars]]
      simp only [parseValue]
      rw [dropWs_cons_not _ _ (by decide)]
      rfl
    · rw [show jsonChars (Json.jbool true) ++ rest =
        't' :: 'r' :: 'u' :: 'e' :: rest by simp [jsonChars]]
      simp only [parseValue]
      rw [dropWs_cons_not _ _ (by decide)]
      rfl
  | jnum n =>
    rw [show jsonChars (Json.jnum n) ++ rest = intChars n ++ rest by simp [jsonChars]]
    exact parseValue_intChars f n rest hrest
  | jstr s =>
    rw [show jsonChars (Json.jstr s) ++ rest = strChars s ++ rest by simp [jsonChars]]
    exact parseValue_strChars f s rest
  | jarr xs => exact absurd hv (by simp [Json.isScalar])
  | jobj fs => exact absurd hv (by simp [Json.isScalar])

/-- Serialized object tails are the comma-prefixed serialization of the
remaining members. -/
theorem objSep_cons (k : String) (v : Json) (fs : List (String × Json)) :
    objSep ((k, v) :: fs) = ',' :: objChars ((k, v) :: fs) := by
  simp [objSep, objChars]

/-- One-step unfolding of the member parser at successor fuel. -/
theorem parseMembers_step (f : Nat) (cs : List Char) :
    parseMembers (f + 1) cs =
      (match dropWs cs with
      | '"' :: r =>
        match parseStringBody r with
        | none => none
        | some (kcs, r1) =>
          match dropWs r1 with
          | ':' :: r2 =>
            match parseValue f r2 with
            | none => none
            | some (v, r3) =>
              match dropWs r3 with
              | ',' :: r4 => (parseMembers f r4).map fun p => ((String.mk kcs, v) :: p.1, p.2)
              | '\x7d' :: r4 => some ([(String.mk kcs, v)], r4)
              | _ => none
          | _ => none
      | _ => none) :=
  rfl

/-- One-step unfolding of the value parser at successor fuel. -/
theorem parseValue_step (f : Nat) (cs : List Char) :
    parseValue (f + 1) cs =
      (match dropWs cs with
      | 'n' :: 'u' :: 'l' :: 'l' :: r => some (.jnull, r)
      | 't' :: 'r' :: 'u' :: 'e' :: r => some (.jbool true, r)
      | 'f' :: 'a' :: 'l' :: 's' :: 'e' :: r => some (.jbool false, r)
      | '"' :: r => (parseStringBody r).map fun p => (.jstr (String.mk p.1), p.2)
      | '[' :: r =>
        match dropWs r with
        | ']' :: r1 => some (.jarr [], r1)
        | r1 => (parseItems f r1).map fun p => (.jarr p.1, p.2)
      | '\x7b' :: r =>
        match dropWs r with
        | '\x7d' :: r1 => some (.jobj [], r1)
        | r1 => (parseMembers f r1).map fun p => (.jobj p.1, p.2)
      | '-' :: r => (parseNat r).map fun p => (.jnum (-(p.1 : Int)), p.2)
      | r => (parseNat r).map fun p => (.jnum (p.1 : Int), p.2)) :=
  rfl

/-- Whitespace dropping ignores a leading quote. -/
theorem dropWs_quote (t : List Char) : dropWs ('"' :: t) = '"' :: t :=
  dropWs_cons_not _ _ (by decide)

/-- Whitespace dropping ignores a leading colon. -/
theorem dropWs_colon (t : List Char) : dropWs (':' :: t) = ':' :: t :=
  dropWs_cons_not _ _ (by decide)

/-- Whitespace dropping ignores a leading comma. -/
theorem dropWs_comma (t : List Char) : dropWs (',' :: t) = ',' :: t :=
  dropWs_cons_not _ _ (by decide)

/-- Whitespace dropping ignores a leading closing brace. -/
theorem dropWs_rbrace (t : List Char) : dropWs ('\x7d' :: t) = '\x7d' :: t :=
  dropWs_cons_not _ _ (by decide)

/-- Whitespace dropping ignores a leading opening brace. -/
theorem dropWs_lbrace (t : List Char) : dropWs ('\x7b' :: t) = '\x7b' :: t :=
  dropWs_cons_not _ _ (by decide)

/-- Serialized members of a flat object followed by the closing brace
parse back to exactly the member list, given fuel at least one more than
the member count. -/
theorem parseMembers_objChars (fs : List (String × Json)) :
    ∀ (fuel : Nat) (rest : List Char),
      (∀ kv ∈ fs, kv.2.isScalar = true) → fs ≠ [] → fs.length + 1 ≤ fuel →
      parseMembers fuel (objChars fs ++ '\x7d' :: rest) = some (fs, rest) := by
  induction fs with
  | nil =>
    intro fuel rest _ hne _
    exact absurd rfl hne
  | cons kv fs ih =>
    intro fuel rest hflat _ hfuel
    obtain ⟨k, v⟩ := kv
    simp only [List.length_cons] at hfuel
    obtain ⟨f, rfl⟩ : ∃ f, fuel = f + 1 := ⟨fuel - 1, by omega⟩
    obtain ⟨f1, rfl⟩ : ∃ f1, f = f1 + 1 := ⟨f - 1, by omega⟩
    have hshape : objChars ((k, v) :: fs) ++ '\x7d' :: rest
        = '"' :: (k.toList.flatMap escapeChar
            ++ '"' :: (':' :: (jsonChars v ++ (objSep fs ++ '\x7d' :: rest)))) := by
      simp [objChars, strChars]
    have hrestV : ∀ c, (objSep fs ++ '\x7d' :: rest).head? = some c → c.isDigit = false := by
      cases fs with
      | nil =>
        intro c hc
        simp [objSep] at hc
        subst hc
        decide
      | cons kv2 fs2 =>
        obtain ⟨k2, v2⟩ := kv2
        intro c hc
        rw [objSep_cons, List.cons_append, List.head?_cons, Option.some.injEq] at hc
        subst hc
        decide
    rw [hshape, parseMembers_step, dropWs_quote]
    simp only [parseStringBody_escaped, dropWs_colon,
      parseValue_scalar f1 v (objSep fs ++ '\x7d' :: rest)
        (hflat (k, v) (List.mem_cons_self _ _)) hrestV]
    cases fs with
    | nil =>
      rw [show objSep ([] : List (String × Json)) ++ '\x7d' :: rest = '\x7d' :: rest by
        simp [objSep]]
      rw [dropWs_rbrace]
      rfl
    | cons kv2 fs2 =>
      obtain ⟨k2, v2⟩ := kv2
      rw [objSep_cons, List.cons_append, dropWs_comma]
      simp only [ih (f1 + 1) rest (fun kv hkv => hflat kv (List.mem_cons_of_mem _ hkv))
        (by simp) (by simp only [List.length_cons] at hfuel ⊢; omega)]
      rfl

/-- Serialized members are at least as numerous in characters as in
members. -/
theorem objChars_length (fs : List (String × Json)) :
    fs.length ≤ (objChars fs).length := by
  induction fs with
  | nil => simp [objChars]
  | cons kv fs ih =>
    obtain ⟨k, v⟩ := kv
    have h1 : objChars ((k, v) :: fs) = strChars k ++ ':' :: (jsonChars v ++ objSep fs) := by
      simp [objChars]
    cases fs with
    | nil =>
      rw [h1]
      simp [strChars]
    | cons kv2 fs2 =>
      obtain ⟨k2, v2⟩ := kv2
      rw [h1, objSep_cons]
      simp only [List.length_append, List.length_cons] at ih ⊢
      omega

/-- The value parser on a serialized nonempty object dispatches to the
member parser. -/
theorem parseValue_obj_step (f : Nat) (k : String) (v : Json)
    (fs : List (String × Json)) (rest : List Char) :
    parseValue (f + 1) ('\x7b' :: (objChars ((k, v) :: fs) ++ '\x7d' :: rest))
      = (parseMembers f (objChars ((k, v) :: fs) ++ '\x7d' :: rest)).map
          fun p => (Json.jobj p.1, p.2) := by
  rw [parseValue_step, dropWs_lbrace]
  show (match dropWs (objChars ((k, v) :: fs) ++ '\x7d' :: rest) with
    | '\x7d' :: r1 => some (Json.jobj [], r1)
    | r1 => (parseMembers f r1).map
        fun (p : List (String × Json) × List Char) => (Json.jobj p.1, p.2)) = _
  have hr : objChars ((k, v) :: fs) ++ '\x7d' :: rest
      = '"' :: (k.toList.flatMap escapeChar
          ++ '"' :: (':' :: (jsonChars v ++ (objSep fs ++ '\x7d' :: rest)))) := by
    simp [objChars, strChars]
  rw [hr, dropWs_quote]
  show (parseMembers f ('"' :: (k.toList.flatMap escapeChar
      ++ '"' :: (':' :: (jsonChars v ++ (objSep fs ++ '\x7d' :: rest)))))).map
        (fun (p : List (String × Json) × List Char) => (Json.jobj p.1, p.2)) = _
  rw [← hr]

/-- A flat object serialized by `stringifyJson` parses back to itself
through the full `JSON.parse` entry point. -/
theorem parseJson_stringify_flat (fs : List (String × Json))
    (hflat : ∀ kv ∈ fs, kv.2.isScalar = true) :
    parseJson (stringifyJson (.jobj fs)) = some (.jobj fs) := by
  cases fs with
  | nil =>
    rw [show stringifyJson (Json.jobj []) = String.mk ['\x7b', '\x7d'] by
      simp [stringifyJson, jsonChars, objChars]]
    rfl
  | cons kv fs =>
    obtain ⟨k, v⟩ := kv
    have hchars : (stringifyJson (Json.jobj ((k, v) :: fs))).toList
        = '\x7b' :: (objChars ((k, v) :: fs) ++ ['\x7d']) := by
      simp [stringifyJson, jsonChars]
    have h1 := objChars_length ((k, v) :: fs)
    simp only [parseJson, hchars]
    generalize hL : ('\x7b' :: (objChars ((k, v) :: fs) ++ ['\x7d'])).length = L
    obtain ⟨F, hF⟩ : ∃ F, 2 * L + 2 = F + 1 := ⟨2 * L + 1, rfl⟩
    rw [hF]
    rw [show ('\x7b' :: (objChars ((k, v) :: fs) ++ ['\x7d']) : List Char)
      = '\x7b' :: (objChars ((k, v) :: fs) ++ '\x7d' :: []) from rfl]
    rw [parseValue_obj_step F k v fs []]
    rw [parseMembers_objChars ((k, v) :: fs) F [] hflat (by simp) (by
      simp only [List.length_cons, List.length_append] at hL h1 ⊢
      omega)]
    rfl

/-- C3: saving a session holding a flat user record that carries an email
(non-null) and a role, then immediately running Session Derivation on the
resulting storage, yields a Current User whose email and role are exactly
the saved ones (the cached-record arm of hydration wins and the
serialize–parse round trip preserves the record). -/
theorem c3_saveSession_hydrate_roundtrip (fs : List (String × Json)) (tok : String)
    (st : Store) (now : Int) (em rl : Json)
    (hflat : ∀ kv ∈ fs, kv.2.isScalar = true)
    (hem : getField (.jobj fs) "email" = some em) (hemn : em ≠ .jnull)
    (hrl : getField (.jobj fs) "role" = some rl) :
    ∃ cu : CurrentUser,
      (hydrate (saveSession tok (some (.jobj fs)) st) now).user = some cu ∧
      cu.email = some em ∧ cu.role = some rl := by
  have hsave : saveSession tok (some (.jobj fs)) st
      = ⟨some tok, some (stringifyJson (.jobj fs))⟩ := rfl
  have hne : stringifyJson (.jobj fs) ≠ "" := by
    intro h
    have h2 : (stringifyJson (Json.jobj fs)).toList = "".toList := by rw [h]
    rw [show (stringifyJson (Json.jobj fs)).toList
      = '\x7b' :: (objChars fs ++ ['\x7d']) by simp [stringifyJson, jsonChars]] at h2
    exact List.noConfusion h2
  have hparse := parseJson_stringify_flat fs hflat
  refine ⟨⟨jsCoalesce (getField (.jobj fs) "userId")
            (jsCoalesce (getField (.jobj fs) "id") (some (.jnum 0))),
          some em,
          jsCoalesce (getField (.jobj fs) "name") (some (.jstr "")),
          some rl⟩, ?_, rfl, rfl⟩
  rw [hsave]
  simp only [hydrate]
  rw [if_neg hne]
  simp only [hparse]
  have hcoal : jsCoalesce (some em) (some (Json.jstr "")) = some em := by
    cases em
    · exact absurd rfl hemn
    · rfl
    · rfl
    · rfl
    · rfl
    · rfl
  rw [hem, hrl, hcoal]

/-- C3 witness: the record `{id: 5, email: "x@y.com", name: "X",
role: "ADMIN"}` saved alongside token `"t"` hydrates back with the same
email and role. -/
theorem c3_saveSession_hydrate_roundtrip_witness :
    ∃ cu : CurrentUser,
      (hydrate (saveSession "t" (some (.jobj [("id", .jnum 5), ("email", .jstr "x@y.com"),
          ("name", .jstr "X"), ("role", .jstr "ADMIN")])) ⟨none, none⟩) 50).user = some cu ∧
      cu.email = some (.jstr "x@y.com") ∧ cu.role = some (.jstr "ADMIN") :=
  c3_saveSession_hydrate_roundtrip
    [("id", .jnum 5), ("email", .jstr "x@y.com"), ("name", .jstr "X"), ("role", .jstr "ADMIN")]
    "t" ⟨none, none⟩ 50 (.jstr "x@y.com") (.jstr "ADMIN")
    (by decide) rfl (fun h => Json.noConfusion h) rfl

end QuizPortal
